import Mathlib

/-!
Verification of the inventory UI core (`src/inventory_ui.h`) of this
repository: the entry/column/selector data model, pagination arithmetic,
cursor invariants, navigation, shortcut-key reassignment, column layout
negotiation, and the compare/drop selector variants.

Functions whose bodies are inline in the header are translated directly.
Functions only declared in the header (their bodies live in the missing
`inventory_ui.cpp`) are modelled from the specification and carry a doc
comment starting with `Modelled from the spec:`.

Machine integers: `size_t` is modelled as `Nat`, with the width taken as
64 bits; wherever the C++ expression can wrap, the reduction modulo
`2 ^ 64` is written explicitly.  `long` is modelled as `Int`.
-/

/-- Word size of `size_t`: 64 bits. -/
def szWidth : Nat := 2 ^ 64

/-- `LONG_MIN`, the default of `inventory_entry::custom_invlet`. -/
def LONG_MIN : Int := -(2 ^ 63)

/-- `navigation_mode` from the header. -/
inductive navigation_mode : Type where
  | ITEM : navigation_mode
  | CATEGORY : navigation_mode
deriving DecidableEq, Repr

/-- `scroll_direction` from the header. -/
inductive scroll_direction : Type where
  | FORWARD : scroll_direction
  | BACKWARD : scroll_direction
deriving DecidableEq, Repr

/-- An item as the widget core sees it: an identity and the identity of its
category (the host item model supplies both). -/
structure item : Type where
  id : Nat
  category : Nat
deriving DecidableEq, Repr

/-- `inventory_entry`: `location` is `none` for `item_location::nowhere`. -/
structure inventory_entry : Type where
  location : Option item := none
  chosen_count : Nat := 0
  custom_invlet : Int := LONG_MIN
  stack_size : Nat := 0
  custom_category : Option Nat := none
  enabled : Bool := true
deriving DecidableEq, Repr

namespace inventory_entry

/-- Modelled from the spec: `inventory_entry::get_category_ptr` (body in the
missing `inventory_ui.cpp`) returns the custom category when set, otherwise
the category of the located item. -/
def get_category_ptr (e : inventory_entry) : Option Nat :=
  match e.custom_category with
  | some c => some c
  | none => e.location.map item.category

/-- `inventory_entry::is_null` (header, inline): no category pointer. -/
def is_null (e : inventory_entry) : Bool :=
  e.get_category_ptr = none

/-- `inventory_entry::is_item` (header, inline). -/
def is_item (e : inventory_entry) : Bool :=
  e.location.isSome

/-- `inventory_entry::is_category` (header, inline). -/
def is_category (e : inventory_entry) : Bool :=
  !e.is_null && !e.is_item

/-- `inventory_entry::is_selectable` (header, inline). -/
def is_selectable (e : inventory_entry) : Bool :=
  e.is_item && e.enabled

end inventory_entry

/-- `inventory_column` state.  The preset is represented by the data the
column's own code consults: the number of cells it registers
(`preset.get_cells_count()`). -/
structure inventory_column : Type where
  entries : List inventory_entry := []
  mode : navigation_mode := navigation_mode.ITEM
  active : Bool := false
  multiselect : Bool := false
  paging_is_valid : Bool := false
  visibility : Bool := true
  selected_index : Nat := 0
  page_offset : Nat := 0
  entries_per_page : Nat := szWidth - 1
  height : Nat := szWidth - 1
  preset_cells_count : Nat := 0
deriving DecidableEq, Repr

namespace inventory_column

/-- `inventory_column::empty` (header, inline). -/
def empty (c : inventory_column) : Bool :=
  c.entries.isEmpty

/-- `inventory_column::visible` (header, inline):
`!empty() && visibility && preset.get_cells_count() > 0`. -/
def visible (c : inventory_column) : Bool :=
  !c.empty && c.visibility && decide (0 < c.preset_cells_count)

/-- Modelled from the spec: `inventory_column::activatable` (body in the
missing `inventory_ui.cpp`); per its header doc comment it returns whether
the column contains selectable entries. -/
def activatable (c : inventory_column) : Bool :=
  c.entries.any inventory_entry.is_selectable

/-- Modelled from the spec: `inventory_column::page_of(index)` (body in the
missing `inventory_ui.cpp`); the spec gives page index =
floor(index / page size). -/
def page_of (c : inventory_column) (index : Nat) : Nat :=
  index / c.entries_per_page

/-- `inventory_column::page_index` (header, inline): `page_of(page_offset)`. -/
def page_index (c : inventory_column) : Nat :=
  c.page_of c.page_offset

/-- `inventory_column::pages_count` (header, inline):
`page_of(entries.size() + entries_per_page - 1)` where the argument is
`size_t` arithmetic, hence reduced modulo `2 ^ 64` (subtracting 1 is adding
`2 ^ 64 - 1`). -/
def pages_count (c : inventory_column) : Nat :=
  c.page_of ((c.entries.length + c.entries_per_page + (szWidth - 1)) % szWidth)

end inventory_column

/-- `selection_column::allows_selecting` (header, inline): always false. -/
def selection_allows_selecting (_c : inventory_column) : Bool :=
  false

/-- `selection_column::activatable` (header, inline):
`inventory_column::activatable() && pages_count() > 1`. -/
def selection_activatable (c : inventory_column) : Bool :=
  c.activatable && decide (1 < c.pages_count)

/-- Whether the entry at position `j` exists and is selectable. -/
def sel_at (entries : List inventory_entry) (j : Nat) : Bool :=
  match entries[j]? with
  | some e => e.is_selectable
  | none => false

/-- Indices of the selectable entries of the column, in display order. -/
def sel_indices (entries : List inventory_entry) : List Nat :=
  (List.range entries.length).filter (fun j => sel_at entries j)

/-- Modelled from the spec: `inventory_column::next_selectable_index` (body
in the missing `inventory_ui.cpp`); walks from `i` in the given direction to
the next selectable entry; on a forward wrap it lands on the first selectable
entry overall, on a backward wrap on the last; when no selectable entry
exists it stays at `i`. -/
def next_selectable_index (entries : List inventory_entry) (i : Nat) :
    scroll_direction → Nat
  | scroll_direction.FORWARD =>
    match (sel_indices entries).find? (fun j => decide (i < j)) with
    | some j => j
    | none => ((sel_indices entries).head?).getD i
  | scroll_direction.BACKWARD =>
    match ((sel_indices entries).reverse).find? (fun j => decide (j < i)) with
    | some j => j
    | none => (((sel_indices entries).reverse).head?).getD i

/-- Modelled from the spec: the cursor index chosen by
`inventory_column::select(new_index, dir)` (body in the missing
`inventory_ui.cpp`); the cursor is set to `new_index` when selectable,
otherwise it walks in direction `dir`, wrapping at the ends, until a
selectable entry is found or the column holds none. -/
def select_index (entries : List inventory_entry) (new_index : Nat)
    (dir : scroll_direction) : Nat :=
  if sel_at entries new_index then new_index
  else next_selectable_index entries new_index dir

/-- Category of the entry at position `j`. -/
def cat_at (entries : List inventory_entry) (j : Nat) : Option Nat :=
  match entries[j]? with
  | some e => e.get_category_ptr
  | none => none

/-- Selectable indices in forward cyclic order starting after `i`. -/
def cyc_fwd (s : List Nat) (i : Nat) : List Nat :=
  s.filter (fun j => decide (i < j)) ++ s.filter (fun j => decide (j ≤ i))

/-- Selectable indices in backward cyclic order starting before `i`. -/
def cyc_bwd (s : List Nat) (i : Nat) : List Nat :=
  (s.filter (fun j => decide (j < i))).reverse ++
    (s.filter (fun j => decide (i ≤ j))).reverse

/-- Modelled from the spec: the category-mode step of
`inventory_column::move_selection` (body in the missing `inventory_ui.cpp`);
forward moves to the first selectable entry of the next category, backward
to the first selectable entry of the previous category, wrapping across
category boundaries. -/
def next_category_index (entries : List inventory_entry) (i : Nat) :
    scroll_direction → Nat
  | scroll_direction.FORWARD =>
    match (cyc_fwd (sel_indices entries) i).find?
        (fun j => decide (cat_at entries j ≠ cat_at entries i)) with
    | some j => j
    | none => i
  | scroll_direction.BACKWARD =>
    match (cyc_bwd (sel_indices entries) i).find?
        (fun j => decide (cat_at entries j ≠ cat_at entries i)) with
    | some k =>
      match (sel_indices entries).find?
          (fun j => decide (cat_at entries j = cat_at entries k)) with
      | some j => j
      | none => k
    | none => i

namespace inventory_column

/-- Modelled from the spec: `inventory_column::select` (body in the missing
`inventory_ui.cpp`); moves the cursor as `select_index` does and keeps the
page offset a multiple of the page size covering the cursor. -/
def select (c : inventory_column) (new_index : Nat)
    (dir : scroll_direction) : inventory_column :=
  let idx := select_index c.entries new_index dir
  { c with selected_index := idx,
           page_offset := idx / c.entries_per_page * c.entries_per_page }

/-- Modelled from the spec: `inventory_column::move_selection` (body in the
missing `inventory_ui.cpp`); in item mode one step to the next or previous
selectable entry, in category mode to the first selectable entry of the next
or previous category, wrapping. -/
def move_selection (c : inventory_column) (dir : scroll_direction) :
    inventory_column :=
  if c.mode = navigation_mode.ITEM then
    c.select (next_selectable_index c.entries c.selected_index dir) dir
  else
    c.select (next_category_index c.entries c.selected_index dir) dir

end inventory_column

/-- Sort key of an entry: its category identity (default preset order sorts
by category first). -/
def entry_cat_key (e : inventory_entry) : Nat :=
  (e.get_category_ptr).getD 0

/-- Sort key of an entry within its category: the item identity (the default
preset comparator follows the host item model's natural order). -/
def entry_id_key (e : inventory_entry) : Nat :=
  ((e.location.map item.id)).getD 0

/-- Modelled from the spec: the default preset ordering, by category then by
the comparator within the category. -/
def entry_le (a b : inventory_entry) : Bool :=
  decide (entry_cat_key a < entry_cat_key b) ||
    (decide (entry_cat_key a = entry_cat_key b) &&
      decide (entry_id_key a ≤ entry_id_key b))

/-- Insertion into a sorted entry list. -/
def insert_entry (e : inventory_entry) :
    List inventory_entry → List inventory_entry
  | [] => [e]
  | x :: xs => if entry_le e x then e :: x :: xs else x :: insert_entry e xs

/-- Insertion sort of the entries by `entry_le`. -/
def sort_entries : List inventory_entry → List inventory_entry
  | [] => []
  | x :: xs => insert_entry x (sort_entries xs)

/-- A synthetic category-header entry. -/
def category_header (c : Option Nat) : inventory_entry :=
  { custom_category := c }

/-- Inserts a category-header row immediately before the first entry of each
category run; `prev` is the category of the preceding run. -/
def insert_headers (prev : Option (Option Nat)) :
    List inventory_entry → List inventory_entry
  | [] => []
  | e :: rest =>
    if prev = some e.get_category_ptr then
      e :: insert_headers (some e.get_category_ptr) rest
    else
      category_header e.get_category_ptr :: e ::
        insert_headers (some e.get_category_ptr) rest

/-- Modelled from the spec: the entry list rebuilt by
`inventory_column::prepare_paging` (body in the missing
`inventory_ui.cpp`): item entries re-sorted by category then by the preset
comparator, with synthetic category headers inserted before the first entry
of each category. -/
def prepare_entries (entries : List inventory_entry) : List inventory_entry :=
  insert_headers none
    (sort_entries (entries.filter (fun e => e.is_item)))

namespace inventory_column

/-- Modelled from the spec: `inventory_column::prepare_paging` (body in the
missing `inventory_ui.cpp`): re-sorts the entries and refreshes the
category headers, takes the configured height as the page size, marks the
paging valid and clamps the cursor to a valid selectable index (a forward
`select` at the current cursor). -/
def prepare_paging (c : inventory_column) : inventory_column :=
  let c1 : inventory_column :=
    { c with entries := prepare_entries c.entries,
             entries_per_page := c.height,
             paging_is_valid := true }
  c1.select c.selected_index scroll_direction.FORWARD

end inventory_column

/-- A sample item used in concrete witnesses and counterexamples. -/
def sampleItem (n : Nat) : item :=
  { id := n, category := n % 2 }

/-- A sample selectable entry. -/
def sampleEntry (n : Nat) : inventory_entry :=
  { location := some (sampleItem n), stack_size := 1 }

/-- A two-entry column left at the default `entries_per_page`
(`std::numeric_limits&lt;size_t&gt;::max()`). -/
def twoEntryDefaultColumn : inventory_column :=
  { entries := [sampleEntry 0, sampleEntry 1] }

/-- A selectable entry of item `n` in category 0. -/
def entryCatA (n : Nat) : inventory_entry :=
  { location := some { id := n, category := 0 }, stack_size := 1 }

/-- A selectable entry of item `n` in category 1. -/
def entryCatB (n : Nat) : inventory_entry :=
  { location := some { id := n, category := 1 }, stack_size := 1 }

/-- A three-entry, two-category column in category navigation mode whose
cursor sits on the second selectable entry of the first category. -/
def categoryModeColumn : inventory_column :=
  { entries := [entryCatA 0, entryCatA 1, entryCatB 2],
    mode := navigation_mode.CATEGORY, selected_index := 1 }

/-- The same column with the cursor on the first entry. -/
def categoryModeColumn0 : inventory_column :=
  { categoryModeColumn with selected_index := 0 }

/-- A three-entry column in item navigation mode, cursor on the middle
entry. -/
def itemModeColumn : inventory_column :=
  { entries := [entryCatA 0, entryCatA 1, entryCatB 2], selected_index := 1 }

/-- A column needing sorting, header refresh and cursor clamping: mixed
categories, a stray header row, cursor on a non-selectable row after
preparation. -/
def messyColumn : inventory_column :=
  { entries := [entryCatB 2, { location := none, custom_category := some 5 },
                entryCatA 1, entryCatA 0],
    selected_index := 3, height := 2 }

/-- Modelled from the spec: `inventory_selector::is_overflown` (body in the
missing `inventory_ui.cpp`); the visible columns are wider than the client
width, i.e. the occupancy ratio exceeds 1. -/
def is_overflown (client_width : Nat) (widths : List Nat) : Bool :=
  decide (client_width < widths.sum)

/-- Modelled from the spec: the row builder of
`inventory_selector::rearrange_columns` (body in the missing
`inventory_ui.cpp`); columns are taken in priority order, fill the current
row while they fit in the client width, and otherwise are pushed — not
shrunk — onto a subsequent row; a column wider than the client width starts
its own row and stays alone on it. -/
def pack_go (client_width : Nat) (row : List Nat) :
    List Nat → List (List Nat)
  | [] => [row]
  | w :: ws =>
    if row.sum + w ≤ client_width ∨ row = [] then
      pack_go client_width (row ++ [w]) ws
    else
      row :: pack_go client_width [w] ws

/-- Modelled from the spec: `inventory_selector::rearrange_columns` (body in
the missing `inventory_ui.cpp`); when the visible columns overflow the
client width, lower-priority columns are redistributed onto subsequent
rows; otherwise all columns stay on one row.  The argument list holds the
visible columns' widths in priority order; the result is the list of
rows. -/
def rearrange_columns (client_width : Nat) (widths : List Nat) :
    List (List Nat) :=
  if is_overflown client_width widths then pack_go client_width [] widths
  else [widths]

/-- Modelled from the spec: the character-side data consulted by
`inventory_column::reassign_custom_invlets`: which item identities already
have a stable shortcut key known to the character, and which keys are
already bound elsewhere. -/
structure player_model : Type where
  known : List Nat := []
  bound : List Int := []
deriving DecidableEq, Repr

/-- Modelled from the spec: whether `reassign_custom_invlets` assigns this
entry a key: a selectable entry lacking a stable key already known to the
character. -/
def needs_key (p : player_model) (e : inventory_entry) : Bool :=
  e.is_selectable && !(p.known.contains (entry_id_key e))

/-- The next unused key at or after `cur` within the key range, skipping
keys already bound elsewhere; `fuel` bounds the walk. -/
def next_free_invlet (bound : List Int) :
    Nat → Int → Int → Option Int
  | 0, _, _ => none
  | fuel + 1, cur, max_invlet =>
    if max_invlet < cur then none
    else if bound.contains cur then
      next_free_invlet bound fuel (cur + 1) max_invlet
    else some cur

/-- Modelled from the spec: the walk of
`inventory_column::reassign_custom_invlets` (body in the missing
`inventory_ui.cpp`): entries in display order; an entry that needs a key
receives the next unused key in the range and the walk continues from the
key after it; when the range is exhausted the entry receives the null key 0
(the spec leaves exhaustion unstated; 0 is the null character sentinel);
other entries pass through untouched.  Returns the reassigned entries and
the next free key. -/
def reassign_go (p : player_model) (max_invlet : Int) :
    Int → List inventory_entry → List inventory_entry × Int
  | cur, [] => ([], cur)
  | cur, e :: rest =>
    if needs_key p e then
      match next_free_invlet p.bound ((max_invlet - cur).toNat + 1)
          cur max_invlet with
      | some k =>
        let r := reassign_go p max_invlet (k + 1) rest
        ({ e with custom_invlet := k } :: r.1, r.2)
      | none =>
        let r := reassign_go p max_invlet cur rest
        ({ e with custom_invlet := 0 } :: r.1, r.2)
    else
      let r := reassign_go p max_invlet cur rest
      (e :: r.1, r.2)

/-- Modelled from the spec: `inventory_column::reassign_custom_invlets`
(body in the missing `inventory_ui.cpp`), starting the walk at
`min_invlet`. -/
def reassign_custom_invlets (p : player_model)
    (min_invlet max_invlet : Int) (entries : List inventory_entry) :
    List inventory_entry × Int :=
  reassign_go p max_invlet min_invlet entries

/-- The keys held by the entries the reassignment targets, in display
order. -/
def assigned_list (p : player_model) (out : List inventory_entry) :
    List Int :=
  (out.filter (fun e => needs_key p e)).map inventory_entry.custom_invlet

/-- Modelled from the spec: `inventory_compare_selector::toggle_entry` (body
in the missing `inventory_ui.cpp`): toggling a compared entry removes it;
toggling a new one appends it, and when the compared list would exceed two
entries the earliest-toggled ones are dropped.  Entries are identified by
the underlying item identity. -/
def toggle_compared (compared : List Nat) (e : Nat) : List Nat :=
  if e ∈ compared then compared.erase e
  else if 2 < (compared ++ [e]).length then
    (compared ++ [e]).drop ((compared ++ [e]).length - 2)
  else compared ++ [e]

/-- Modelled from the spec: `inventory_drop_selector::set_drop_count` (body
in the missing `inventory_ui.cpp`): count 0 erases the item from the
dropping map, a positive count (re)binds it.  The map is item identity to
requested quantity. -/
def set_drop_count (dropping : List (Nat × Nat)) (id count : Nat) :
    List (Nat × Nat) :=
  if count = 0 then dropping.filter (fun q => decide (q.1 ≠ id))
  else (dropping.filter (fun q => decide (q.1 ≠ id))) ++ [(id, count)]

/-- Modelled from the spec: the result built by
`inventory_drop_selector::execute` (body in the missing `inventory_ui.cpp`)
on confirm: the (item, quantity) pairs of all non-zero entries of the
dropping map. -/
def drop_execute (dropping : List (Nat × Nat)) : List (Nat × Nat) :=
  dropping.filter (fun q => decide (q.2 ≠ 0))

/-- C10: a column is visible iff it is non-empty, its visibility flag is set,
and its preset registers at least one cell. -/
theorem visible_iff (c : inventory_column) :
    c.visible = true ↔
      c.entries ≠ [] ∧ c.visibility = true ∧ 0 < c.preset_cells_count := by
  simp [inventory_column.visible, inventory_column.empty, List.isEmpty_iff,
    and_assoc]

/-- C9: a selection column never allows selecting, and is activatable exactly
when the base column is activatable and it has more than one page. -/
theorem selection_column_behavior (c : inventory_column) :
    selection_allows_selecting c = false ∧
      (selection_activatable c = true ↔
        c.activatable = true ∧ 1 < c.pages_count) := by
  constructor
  · rfl
  · simp [selection_activatable]

/-- C3 counterexample: at the default `entries_per_page` (the maximum
`size_t`) a column with two entries has `pages_count() = 0`, while the
ceiling of `entries.size() / entries_per_page` is `1`: the claimed equality
fails at the default value. -/
theorem pages_count_default_cex :
    twoEntryDefaultColumn.pages_count ≠
      twoEntryDefaultColumn.entries.length ⌈/⌉
        twoEntryDefaultColumn.entries_per_page := by
  decide

/-- C3 (amended): `page_index()` always equals
floor(`page_offset` / `entries_per_page`), and `pages_count()` equals
ceil(`entries.size()` / `entries_per_page`) whenever `entries_per_page` is
positive and `entries.size() + entries_per_page - 1` does not wrap modulo
`2 ^ 64`; at the default `entries_per_page` the wrap makes `pages_count()`
return 0 once two or more entries are present. -/
theorem page_arithmetic (c : inventory_column)
    (hpos : 0 < c.entries_per_page)
    (hnow : c.entries.length + c.entries_per_page - 1 < szWidth) :
    c.page_index = c.page_offset / c.entries_per_page ∧
      c.pages_count = c.entries.length ⌈/⌉ c.entries_per_page := by
  refine ⟨rfl, ?_⟩
  have harg : c.entries.length + c.entries_per_page + (szWidth - 1)
      = c.entries.length + c.entries_per_page - 1 + szWidth := by
    omega
  have hmod : (c.entries.length + c.entries_per_page + (szWidth - 1)) % szWidth
      = c.entries.length + c.entries_per_page - 1 := by
    rw [harg, Nat.add_mod_right, Nat.mod_eq_of_lt hnow]
  rw [inventory_column.pages_count, inventory_column.page_of, hmod,
    Nat.ceilDiv_eq_add_pred_div]

/-- Witness for C3 (amended) at a concrete column: three entries, page size
two, two pages. -/
theorem page_arithmetic_witness :
    ({ entries := [sampleEntry 0, sampleEntry 1, sampleEntry 2],
       entries_per_page := 2 } : inventory_column).pages_count
      = (3 : Nat) ⌈/⌉ 2 :=
  (page_arithmetic
    { entries := [sampleEntry 0, sampleEntry 1, sampleEntry 2],
      entries_per_page := 2 } (by decide) (by decide)).2

/-- Two list accesses at equal indices agree. -/
theorem get_idx_congr {α : Type} (l : List α) {a b : Nat} (ha : a < l.length)
    (hb : b < l.length) (h : a = b) : l.get ⟨a, ha⟩ = l.get ⟨b, hb⟩ := by
  subst h
  rfl

/-- The optional head of a non-empty list is its first element. -/
theorem head?_eq_get {α : Type} (l : List α) (h : 0 < l.length) :
    l.head? = some (l.get ⟨0, h⟩) := by
  cases l with
  | nil => simp at h
  | cons a tl => rfl

/-- If a predicate on a list holds exactly from position `t` on, `find?`
returns the element at position `t`. -/
theorem find_first_char {α : Type} (p : α → Bool) :
    ∀ (s : List α) (t : Nat) (ht : t < s.length),
      (∀ u (hu : u < s.length), (p (s.get ⟨u, hu⟩) = true ↔ t ≤ u)) →
      s.find? p = some (s.get ⟨t, ht⟩)
  | [], t, ht, _ => absurd ht (by simp)
  | a :: tl, 0, ht, hchar => by
    have hp : p a = true := (hchar 0 ht).mpr (Nat.le_refl 0)
    simpa using List.find?_cons_of_pos tl hp
  | a :: tl, t + 1, ht, hchar => by
    have hp : ¬p a = true := by
      intro hpa
      exact absurd ((hchar 0 (Nat.succ_pos _)).mp hpa) (by omega)
    rw [List.find?_cons_of_neg tl hp]
    exact find_first_char p tl t (Nat.lt_of_succ_lt_succ ht)
      (fun u hu => by
        have := hchar (u + 1) (Nat.succ_lt_succ hu)
        simpa [Nat.succ_le_succ_iff] using this)

/-- If a predicate holds at no position of the list, `find?` returns
nothing. -/
theorem find_none_char {α : Type} (p : α → Bool) (s : List α)
    (hchar : ∀ u (hu : u < s.length), ¬p (s.get ⟨u, hu⟩) = true) :
    s.find? p = none := by
  rw [List.find?_eq_none]
  intro x hx
  obtain ⟨u, hu⟩ := List.mem_iff_get.mp hx
  exact hu ▸ hchar u.1 u.2

/-- `sel_at` unfolded: the position is in range and the entry there is
selectable. -/
theorem sel_at_iff_get (entries : List inventory_entry) (j : Nat) :
    sel_at entries j = true ↔
      ∃ h : j < entries.length,
        (entries.get ⟨j, h⟩).is_selectable = true := by
  rcases Nat.lt_or_ge j entries.length with h | h
  · simp [sel_at, List.getElem?_eq_getElem h, List.get_eq_getElem, h]
  · simp [sel_at, List.getElem?_eq_none h, Nat.not_lt_of_ge h]

/-- Membership in `sel_indices`. -/
theorem mem_sel_indices (entries : List inventory_entry) (j : Nat) :
    j ∈ sel_indices entries ↔
      j < entries.length ∧ sel_at entries j = true := by
  simp [sel_indices, List.mem_filter, List.mem_range]

/-- Positions in `sel_indices` are in range. -/
theorem lt_of_mem_sel_indices {entries : List inventory_entry} {j : Nat}
    (h : j ∈ sel_indices entries) : j < entries.length :=
  ((mem_sel_indices entries j).mp h).1

/-- A selectable cursor position is a member of `sel_indices`. -/
theorem mem_sel_indices_of_sel_at {entries : List inventory_entry} {j : Nat}
    (h : sel_at entries j = true) : j ∈ sel_indices entries := by
  obtain ⟨hlt, _⟩ := (sel_at_iff_get entries j).mp h
  exact (mem_sel_indices entries j).mpr ⟨hlt, h⟩

/-- `sel_indices` is non-empty exactly when some entry is selectable. -/
theorem sel_indices_ne_nil_iff (entries : List inventory_entry) :
    sel_indices entries ≠ [] ↔
      ∃ e ∈ entries, e.is_selectable = true := by
  constructor
  · intro h
    obtain ⟨j, hj⟩ := List.exists_mem_of_ne_nil _ h
    obtain ⟨hlt, hsel⟩ := (mem_sel_indices entries j).mp hj
    obtain ⟨h1, h2⟩ := (sel_at_iff_get entries j).mp hsel
    exact ⟨entries.get ⟨j, h1⟩, List.get_mem _ _ _, h2⟩
  · rintro ⟨e, he, hsel⟩
    obtain ⟨⟨j, hj⟩, hget⟩ := List.mem_iff_get.mp he
    have : sel_at entries j = true :=
      (sel_at_iff_get entries j).mpr ⟨hj, by rw [hget]; exact hsel⟩
    exact List.ne_nil_of_mem (mem_sel_indices_of_sel_at this)

/-- The selectable indices are strictly increasing. -/
theorem sel_indices_sorted (entries : List inventory_entry) :
    (sel_indices entries).Pairwise (· < ·) :=
  List.Pairwise.filter _ (List.pairwise_lt_range _)

/-- Reverse access expressed on the original list. -/
theorem get_reverse_eq {α : Type} (l : List α) (v : Nat)
    (hv : v < l.reverse.length) (h2 : l.length - 1 - v < l.length) :
    l.reverse.get ⟨v, hv⟩ = l.get ⟨l.length - 1 - v, h2⟩ := by
  simp [List.get_eq_getElem, List.getElem_reverse]

/-- Order of selectable indices matches the order of positions inside
`sel_indices`. -/
theorem sel_get_lt_iff (entries : List inventory_entry) {a b : Nat}
    (ha : a < (sel_indices entries).length)
    (hb : b < (sel_indices entries).length) :
    (sel_indices entries).get ⟨a, ha⟩ < (sel_indices entries).get ⟨b, hb⟩ ↔
      a < b := by
  have hmono := List.pairwise_iff_get.mp (sel_indices_sorted entries)
  constructor
  · intro hlt
    by_contra hba
    have hba' : b ≤ a := by omega
    rcases Nat.lt_or_eq_of_le hba' with hb2 | hb2
    · have := hmono ⟨b, hb⟩ ⟨a, ha⟩ (by exact Fin.mk_lt_mk.mpr hb2)
      omega
    · subst hb2
      exact absurd hlt (lt_irrefl _)
  · intro hab
    exact hmono ⟨a, ha⟩ ⟨b, hb⟩ (Fin.mk_lt_mk.mpr hab)

/-- Forward step from the `t`-th selectable entry lands on the cyclically
next selectable entry. -/
theorem next_fwd_eq (entries : List inventory_entry) (t : Nat)
    (ht : t < (sel_indices entries).length) :
    next_selectable_index entries ((sel_indices entries).get ⟨t, ht⟩)
        scroll_direction.FORWARD
      = (sel_indices entries).get
          ⟨(t + 1) % (sel_indices entries).length,
           Nat.mod_lt _ (Nat.lt_of_le_of_lt (Nat.zero_le t) ht)⟩ := by
  have hchar : ∀ u (hu : u < (sel_indices entries).length),
      ((fun j => decide ((sel_indices entries).get ⟨t, ht⟩ < j))
        ((sel_indices entries).get ⟨u, hu⟩) = true ↔ t + 1 ≤ u) := by
    intro u hu
    simp only [decide_eq_true_eq]
    rw [sel_get_lt_iff entries ht hu]
    omega
  rcases Nat.lt_or_ge (t + 1) (sel_indices entries).length with h1 | h1
  · have hf := find_first_char
      (fun j => decide ((sel_indices entries).get ⟨t, ht⟩ < j))
      (sel_indices entries) (t + 1) h1 hchar
    simp only [next_selectable_index]
    rw [hf]
    exact get_idx_congr _ h1 _ (Nat.mod_eq_of_lt h1).symm
  · have hf : (sel_indices entries).find?
        (fun j => decide ((sel_indices entries).get ⟨t, ht⟩ < j)) = none := by
      apply find_none_char
      intro u hu hp
      have := (hchar u hu).mp hp
      omega
    simp only [next_selectable_index]
    rw [hf]
    have hpos : 0 < (sel_indices entries).length := by omega
    simp only [head?_eq_get _ hpos, Option.getD_some]
    apply get_idx_congr _ hpos _
    have : t + 1 = (sel_indices entries).length := by omega
    rw [this, Nat.mod_self]

/-- Backward step from the `t`-th selectable entry lands on the cyclically
previous selectable entry. -/
theorem next_bwd_eq (entries : List inventory_entry) (t : Nat)
    (ht : t < (sel_indices entries).length) :
    next_selectable_index entries ((sel_indices entries).get ⟨t, ht⟩)
        scroll_direction.BACKWARD
      = (sel_indices entries).get
          ⟨(t + (sel_indices entries).length - 1) %
              (sel_indices entries).length,
           Nat.mod_lt _ (Nat.lt_of_le_of_lt (Nat.zero_le t) ht)⟩ := by
  have hlen : (sel_indices entries).reverse.length
      = (sel_indices entries).length := List.length_reverse _
  have hchar : ∀ u (hu : u < (sel_indices entries).reverse.length),
      ((fun j => decide (j < (sel_indices entries).get ⟨t, ht⟩))
        ((sel_indices entries).reverse.get ⟨u, hu⟩) = true ↔
          (sel_indices entries).length - t ≤ u) := by
    intro u hu
    have hu' : u < (sel_indices entries).length := by omega
    have h2 : (sel_indices entries).length - 1 - u
        < (sel_indices entries).length := by omega
    simp only [get_reverse_eq _ u hu h2, decide_eq_true_eq]
    rw [sel_get_lt_iff entries h2 ht]
    omega
  rcases Nat.eq_zero_or_pos t with h0 | h0
  · subst h0
    have hf : (sel_indices entries).reverse.find?
        (fun j => decide (j < (sel_indices entries).get ⟨0, ht⟩)) = none := by
      apply find_none_char
      intro u hu hp
      have := (hchar u hu).mp hp
      omega
    simp only [next_selectable_index]
    rw [hf]
    have hpos : 0 < (sel_indices entries).reverse.length := by omega
    have h2 : (sel_indices entries).length - 1 - 0
        < (sel_indices entries).length := by omega
    simp only [head?_eq_get _ hpos, Option.getD_some, get_reverse_eq _ 0 hpos h2]
    apply get_idx_congr _ h2 _
    have hmod : (0 + (sel_indices entries).length - 1) %
        (sel_indices entries).length = (sel_indices entries).length - 1 := by
      rw [Nat.zero_add]
      exact Nat.mod_eq_of_lt (by omega)
    rw [hmod]
    omega
  · have hth : (sel_indices entries).length - t
        < (sel_indices entries).reverse.length := by omega
    have hf := find_first_char
      (fun j => decide (j < (sel_indices entries).get ⟨t, ht⟩))
      ((sel_indices entries).reverse)
      ((sel_indices entries).length - t) hth hchar
    simp only [next_selectable_index]
    rw [hf]
    have h2 : (sel_indices entries).length - 1 -
        ((sel_indices entries).length - t) < (sel_indices entries).length := by
      omega
    rw [get_reverse_eq _ _ hth h2]
    apply get_idx_congr _ h2 _
    have hmod : (t + (sel_indices entries).length - 1) %
        (sel_indices entries).length = t - 1 := by
      have harg : t + (sel_indices entries).length - 1
          = t - 1 + (sel_indices entries).length := by omega
      rw [harg, Nat.add_mod_right]
      exact Nat.mod_eq_of_lt (by omega)
    rw [hmod]
    omega

/-- `select` does not touch the entry list. -/
theorem select_entries (c : inventory_column) (n : Nat)
    (dir : scroll_direction) : (c.select n dir).entries = c.entries := rfl

/-- `select` does not touch the navigation mode. -/
theorem select_mode (c : inventory_column) (n : Nat)
    (dir : scroll_direction) : (c.select n dir).mode = c.mode := rfl

/-- The cursor set by `select`. -/
theorem select_selected_index (c : inventory_column) (n : Nat)
    (dir : scroll_direction) :
    (c.select n dir).selected_index = select_index c.entries n dir := rfl

/-- `select_index` keeps a cursor that is already selectable. -/
theorem select_index_of_sel_at (entries : List inventory_entry) {j : Nat}
    (h : sel_at entries j = true) (dir : scroll_direction) :
    select_index entries j dir = j := if_pos h

/-- `move_selection` does not touch the entry list. -/
theorem move_selection_entries (c : inventory_column)
    (dir : scroll_direction) : (c.move_selection dir).entries = c.entries := by
  unfold inventory_column.move_selection
  split <;> rfl

/-- `move_selection` does not touch the navigation mode. -/
theorem move_selection_mode (c : inventory_column)
    (dir : scroll_direction) : (c.move_selection dir).mode = c.mode := by
  unfold inventory_column.move_selection
  split <;> rfl

/-- The cursor moved by `move_selection` in item mode. -/
theorem move_selection_item_index (c : inventory_column)
    (hmode : c.mode = navigation_mode.ITEM) (dir : scroll_direction) :
    (c.move_selection dir).selected_index
      = select_index c.entries
          (next_selectable_index c.entries c.selected_index dir) dir := by
  unfold inventory_column.move_selection
  rw [if_pos hmode]
  rfl

/-- One item-mode forward step, expressed on positions inside
`sel_indices`. -/
theorem step_fwd_index (entries : List inventory_entry) (a b : Nat)
    (ha : a < (sel_indices entries).length)
    (hb : b < (sel_indices entries).length)
    (hab : b = (a + 1) % (sel_indices entries).length) :
    select_index entries
        (next_selectable_index entries ((sel_indices entries).get ⟨a, ha⟩)
          scroll_direction.FORWARD) scroll_direction.FORWARD
      = (sel_indices entries).get ⟨b, hb⟩ := by
  subst hab
  rw [next_fwd_eq entries a ha]
  exact select_index_of_sel_at entries
    ((mem_sel_indices entries _).mp (List.get_mem _ _ _)).2 _

/-- One item-mode backward step, expressed on positions inside
`sel_indices`. -/
theorem step_bwd_index (entries : List inventory_entry) (a b : Nat)
    (ha : a < (sel_indices entries).length)
    (hb : b < (sel_indices entries).length)
    (hab : b = (a + (sel_indices entries).length - 1) %
        (sel_indices entries).length) :
    select_index entries
        (next_selectable_index entries ((sel_indices entries).get ⟨a, ha⟩)
          scroll_direction.BACKWARD) scroll_direction.BACKWARD
      = (sel_indices entries).get ⟨b, hb⟩ := by
  subst hab
  rw [next_bwd_eq entries a ha]
  exact select_index_of_sel_at entries
    ((mem_sel_indices entries _).mp (List.get_mem _ _ _)).2 _

/-- C5 counterexample: in category navigation mode, starting from the second
selectable entry of a category, a forward step followed by a backward step
lands on the first selectable entry of that category, not on the starting
entry — although the column has more than one selectable entry and the
start is selectable. -/
theorem move_fwd_bwd_category_cex :
    1 < (sel_indices categoryModeColumn.entries).length ∧
      sel_at categoryModeColumn.entries categoryModeColumn.selected_index
        = true ∧
      ((categoryModeColumn.move_selection
          scroll_direction.FORWARD).move_selection
            scroll_direction.BACKWARD).selected_index
        ≠ categoryModeColumn.selected_index := by
  decide

/-- C5 (amended): in item navigation mode, from any selectable starting
entry of a column with more than one selectable entry,
`move_selection(FORWARD)` followed by `move_selection(BACKWARD)` restores
the original cursor. -/
theorem move_fwd_bwd_roundtrip (c : inventory_column)
    (hmode : c.mode = navigation_mode.ITEM)
    (hsel : sel_at c.entries c.selected_index = true)
    (hN : 1 < (sel_indices c.entries).length) :
    ((c.move_selection scroll_direction.FORWARD).move_selection
        scroll_direction.BACKWARD).selected_index = c.selected_index := by
  obtain ⟨⟨t, ht⟩, hget⟩ :=
    List.mem_iff_get.mp (mem_sel_indices_of_sel_at hsel)
  have hb1 : (t + 1) % (sel_indices c.entries).length
      < (sel_indices c.entries).length := Nat.mod_lt _ (by omega)
  have hidx1 : (c.move_selection scroll_direction.FORWARD).selected_index
      = (sel_indices c.entries).get
          ⟨(t + 1) % (sel_indices c.entries).length, hb1⟩ := by
    rw [move_selection_item_index c hmode, ← hget]
    exact step_fwd_index c.entries t _ ht hb1 rfl
  have hm1 : (c.move_selection scroll_direction.FORWARD).mode
      = navigation_mode.ITEM :=
    (move_selection_mode c scroll_direction.FORWARD).trans hmode
  rw [move_selection_item_index _ hm1,
    move_selection_entries c scroll_direction.FORWARD, hidx1]
  have harith : t = ((t + 1) % (sel_indices c.entries).length
      + (sel_indices c.entries).length - 1) %
        (sel_indices c.entries).length := by
    have h2 : (t + 1) % (sel_indices c.entries).length
        + (sel_indices c.entries).length - 1
        = (t + 1) % (sel_indices c.entries).length
          + ((sel_indices c.entries).length - 1) := by omega
    rw [h2, Nat.mod_add_mod]
    have h3 : t + 1 + ((sel_indices c.entries).length - 1)
        = t + (sel_indices c.entries).length := by omega
    rw [h3, Nat.add_mod_right, Nat.mod_eq_of_lt ht]
  rw [← hget]
  exact step_bwd_index c.entries _ t hb1 ht harith

/-- Item-mode state after `k` forward steps: the entries and mode are
untouched and the cursor sits on the `(t + k) mod N`-th selectable entry. -/
theorem iterate_fwd_state (c : inventory_column)
    (hmode : c.mode = navigation_mode.ITEM) (t : Nat)
    (ht : t < (sel_indices c.entries).length)
    (hidx : c.selected_index = (sel_indices c.entries).get ⟨t, ht⟩) :
    ∀ k : Nat,
      ((fun x => inventory_column.move_selection x
          scroll_direction.FORWARD)^[k] c).entries = c.entries ∧
      ((fun x => inventory_column.move_selection x
          scroll_direction.FORWARD)^[k] c).mode = c.mode ∧
      ∃ hm : (t + k) % (sel_indices c.entries).length
          < (sel_indices c.entries).length,
        ((fun x => inventory_column.move_selection x
            scroll_direction.FORWARD)^[k] c).selected_index
          = (sel_indices c.entries).get
              ⟨(t + k) % (sel_indices c.entries).length, hm⟩ := by
  intro k
  induction k with
  | zero =>
    refine ⟨rfl, rfl, Nat.mod_lt _ (by omega), ?_⟩
    rw [Function.iterate_zero_apply, hidx]
    exact get_idx_congr _ ht _ (by rw [Nat.add_zero, Nat.mod_eq_of_lt ht])
  | succ k ih =>
    obtain ⟨he, hm, hbk, hik⟩ := ih
    have hmx : ((fun x => inventory_column.move_selection x
        scroll_direction.FORWARD)^[k] c).mode = navigation_mode.ITEM :=
      hm.trans hmode
    have hb1 : (t + (k + 1)) % (sel_indices c.entries).length
        < (sel_indices c.entries).length := Nat.mod_lt _ (by omega)
    refine ⟨?_, ?_, hb1, ?_⟩
    · rw [Function.iterate_succ_apply', move_selection_entries, he]
    · rw [Function.iterate_succ_apply', move_selection_mode, hm]
    · rw [Function.iterate_succ_apply', move_selection_item_index _ hmx, he,
        hik]
      apply step_fwd_index c.entries _ _ hbk hb1
      rw [Nat.mod_add_mod, ← Nat.add_assoc]

/-- C6 counterexample: in category navigation mode, three forward steps on a
column with three selectable entries do not return the cursor to its
selectable starting entry. -/
theorem move_fwd_cycle_category_cex :
    1 ≤ (sel_indices categoryModeColumn0.entries).length ∧
      sel_at categoryModeColumn0.entries categoryModeColumn0.selected_index
        = true ∧
      ((fun x => inventory_column.move_selection x
          scroll_direction.FORWARD)^[(sel_indices
            categoryModeColumn0.entries).length]
          categoryModeColumn0).selected_index
        ≠ categoryModeColumn0.selected_index := by
  decide

/-- C6 (amended): in item navigation mode, applying
`move_selection(FORWARD)` as many times as there are selectable entries,
from any selectable starting entry, returns the cursor to that entry. -/
theorem move_fwd_cycle (c : inventory_column)
    (hmode : c.mode = navigation_mode.ITEM)
    (hsel : sel_at c.entries c.selected_index = true)
    (hN : 1 ≤ (sel_indices c.entries).length) :
    ((fun x => inventory_column.move_selection x
        scroll_direction.FORWARD)^[(sel_indices c.entries).length]
        c).selected_index = c.selected_index := by
  obtain ⟨⟨t, ht⟩, hget⟩ :=
    List.mem_iff_get.mp (mem_sel_indices_of_sel_at hsel)
  obtain ⟨he, hm, hb, hi⟩ := iterate_fwd_state c hmode t ht hget.symm
    (sel_indices c.entries).length
  rw [hi, ← hget]
  exact get_idx_congr _ hb ht (by rw [Nat.add_mod_right, Nat.mod_eq_of_lt ht])

/-- The clamped cursor is a selectable index whenever one exists. -/
theorem select_index_mem (entries : List inventory_entry) (i : Nat)
    (dir : scroll_direction) (h : sel_indices entries ≠ []) :
    select_index entries i dir ∈ sel_indices entries := by
  unfold select_index
  by_cases hs : sel_at entries i = true
  · rw [if_pos hs]
    exact mem_sel_indices_of_sel_at hs
  · rw [if_neg hs]
    cases dir with
    | FORWARD =>
      simp only [next_selectable_index]
      cases hf : (sel_indices entries).find? (fun j => decide (i < j)) with
      | some j =>
        simpa using List.mem_of_find?_eq_some hf
      | none =>
        cases hsl : sel_indices entries with
        | nil => exact absurd hsl h
        | cons a tl =>
          simp [hsl]
    | BACKWARD =>
      simp only [next_selectable_index]
      cases hf : (sel_indices entries).reverse.find?
          (fun j => decide (j < i)) with
      | some j =>
        simpa using List.mem_reverse.mp (List.mem_of_find?_eq_some hf)
      | none =>
        cases hsl : (sel_indices entries).reverse with
        | nil =>
          exact absurd (List.reverse_eq_nil_iff.mp hsl) h
        | cons a tl =>
          have : a ∈ sel_indices entries := by
            rw [← List.mem_reverse, hsl]
            exact List.mem_cons_self a tl
          simp [hsl, this]

/-- C1: after `prepare_paging()`, the cursor refers to a selectable entry
whenever the column holds at least one selectable entry; when it holds
none, `activatable()` is false. -/
theorem prepare_paging_cursor (c : inventory_column)
    (hne : c.entries ≠ []) :
    ((∃ e ∈ (c.prepare_paging).entries, e.is_selectable = true) →
      ∃ h : (c.prepare_paging).selected_index
          < (c.prepare_paging).entries.length,
        ((c.prepare_paging).entries.get
          ⟨(c.prepare_paging).selected_index, h⟩).is_selectable = true) ∧
    ((¬∃ e ∈ (c.prepare_paging).entries, e.is_selectable = true) →
      (c.prepare_paging).activatable = false) := by
  have hent : (c.prepare_paging).entries = prepare_entries c.entries := rfl
  have hidx : (c.prepare_paging).selected_index
      = select_index (prepare_entries c.entries) c.selected_index
          scroll_direction.FORWARD := rfl
  constructor
  · intro hex
    rw [hent] at hex
    have hnn : sel_indices (prepare_entries c.entries) ≠ [] :=
      (sel_indices_ne_nil_iff _).mpr hex
    have hmem := select_index_mem (prepare_entries c.entries)
      c.selected_index scroll_direction.FORWARD hnn
    have hsel := ((mem_sel_indices _ _).mp hmem).2
    obtain ⟨hlt, hget⟩ := (sel_at_iff_get _ _).mp hsel
    rw [hent, hidx]
    exact ⟨hlt, hget⟩
  · intro hno
    rw [hent] at hno
    push_neg at hno
    have : ∀ e ∈ prepare_entries c.entries,
        ¬e.is_selectable = true := by
      intro e he
      exact fun hsel => (hno e he) hsel
    unfold inventory_column.activatable
    rw [hent, List.any_eq_false]
    exact this

/-- Witness for C1 at a concrete column with mixed categories and a
non-selectable row under the cursor after preparation. -/
theorem prepare_paging_cursor_witness :
    messyColumn.entries ≠ [] ∧
      ∃ h : (messyColumn.prepare_paging).selected_index
          < (messyColumn.prepare_paging).entries.length,
        ((messyColumn.prepare_paging).entries.get
          ⟨(messyColumn.prepare_paging).selected_index, h⟩).is_selectable
          = true :=
  ⟨by decide, (prepare_paging_cursor messyColumn (by decide)).1 (by decide)⟩

/-- Row invariant of the greedy packer: every emitted row fits the client
width, or is a single oversized column alone on its row. -/
theorem pack_go_rows (client_width : Nat) :
    ∀ (ws row : List Nat)
      (hrow : row.sum ≤ client_width ∨
        ∃ w, row = [w] ∧ client_width < w),
      ∀ r ∈ pack_go client_width row ws,
        r.sum ≤ client_width ∨ ∃ w, r = [w] ∧ client_width < w
  | [], row, hrow, r, hr => by
    unfold pack_go at hr
    rw [List.mem_singleton] at hr
    exact hr ▸ hrow
  | w :: ws, row, hrow, r, hr => by
    unfold pack_go at hr
    by_cases hc : row.sum + w ≤ client_width ∨ row = []
    · rw [if_pos hc] at hr
      refine pack_go_rows client_width ws (row ++ [w]) ?_ r hr
      rcases hc with hfit | hempty
      · exact Or.inl (by rw [List.sum_append]; simpa using hfit)
      · subst hempty
        rcases le_or_lt w client_width with hw | hw
        · exact Or.inl (by simpa using hw)
        · exact Or.inr ⟨w, by simp, hw⟩
    · rw [if_neg hc] at hr
      rcases List.mem_cons.mp hr with hre | hrt
      · exact hre ▸ hrow
      · refine pack_go_rows client_width ws [w] ?_ r hrt
        rcases le_or_lt w client_width with hw | hw
        · exact Or.inl (by simpa using hw)
        · exact Or.inr ⟨w, rfl, hw⟩

/-- C2: after `rearrange_columns`, every row of visible columns fits the
client width, except that a single column wider than the client width
stands alone on its row. -/
theorem rearrange_columns_fits (client_width : Nat) (widths : List Nat)
    (r : List Nat) (hr : r ∈ rearrange_columns client_width widths) :
    r.sum ≤ client_width ∨ ∃ w, r = [w] ∧ client_width < w := by
  unfold rearrange_columns at hr
  by_cases ho : is_overflown client_width widths = true
  · rw [if_pos ho] at hr
    exact pack_go_rows client_width widths [] (Or.inl (by simp)) r hr
  · rw [if_neg ho] at hr
    rw [List.mem_singleton] at hr
    subst hr
    simp only [is_overflown, decide_eq_true_eq, Nat.not_lt] at ho
    exact Or.inl (by omega)

/-- Witness for C2: client width 10, columns 4, 5, 3 and an oversized 12;
the oversized column stands alone on its row. -/
theorem rearrange_columns_fits_witness :
    [12] ∈ rearrange_columns 10 [4, 5, 3, 12] ∧
      ((12 : Nat) + 0 ≤ 10 ∨ ∃ w, [12] = [w] ∧ 10 < w) := by
  have h := rearrange_columns_fits 10 [4, 5, 3, 12] [12] (by decide)
  exact ⟨by decide, by simpa using h⟩

/-- C7: the compared list never grows beyond two entries, and toggling
three distinct entries from an empty compared list keeps exactly the last
two, evicting the earliest. -/
theorem compare_toggle_spec (compared : List Nat) (e : Nat)
    (hlen : compared.length ≤ 2) (A B C : Nat)
    (hAB : A ≠ B) (hAC : A ≠ C) (hBC : B ≠ C) :
    (toggle_compared compared e).length ≤ 2 ∧
      toggle_compared (toggle_compared (toggle_compared [] A) B) C
        = [B, C] := by
  constructor
  · unfold toggle_compared
    by_cases he : e ∈ compared
    · rw [if_pos he, List.length_erase, if_pos he]
      omega
    · rw [if_neg he]
      by_cases h2 : 2 < (compared ++ [e]).length
      · rw [if_pos h2, List.length_drop]
        omega
      · rw [if_neg h2]
        omega
  · have h1 : toggle_compared [] A = [A] := by
      simp [toggle_compared]
    have h2 : toggle_compared [A] B = [A, B] := by
      simp [toggle_compared, Ne.symm hAB]
    have h3 : toggle_compared [A, B] C = [B, C] := by
      simp [toggle_compared, Ne.symm hAC, Ne.symm hBC]
    rw [h1, h2, h3]

/-- Witness for C7 at concrete entries 1, 2, 3. -/
theorem compare_toggle_spec_witness :
    ([7, 8] : List Nat).length ≤ 2 ∧
      ((toggle_compared [7, 8] 9).length ≤ 2 ∧
        toggle_compared (toggle_compared (toggle_compared [] 1) 2) 3
          = [2, 3]) :=
  ⟨by decide, compare_toggle_spec [7, 8] 9 (by decide) 1 2 3
    (by decide) (by decide) (by decide)⟩

/-- C8: when every requested drop quantity is zero, `execute()` returns the
empty list on confirm; in general exactly the non-zero entries appear in
the result. -/
theorem drop_execute_spec (dropping : List (Nat × Nat)) :
    ((∀ q ∈ dropping, q.2 = 0) → drop_execute dropping = []) ∧
      (∀ q, q ∈ drop_execute dropping ↔ q ∈ dropping ∧ q.2 ≠ 0) := by
  constructor
  · intro hzero
    rw [drop_execute, List.filter_eq_nil_iff]
    intro q hq
    simp [hzero q hq]
  · intro q
    simp [drop_execute, List.mem_filter]

/-- Witness for C8 at a concrete all-zero dropping map. -/
theorem drop_execute_spec_witness :
    drop_execute [(1, 0), (2, 0)] = [] :=
  (drop_execute_spec [(1, 0), (2, 0)]).1 (by decide)

/-- Reassigning a key does not change whether an entry needs one. -/
theorem needs_key_set_invlet (p : player_model) (e : inventory_entry)
    (k : Int) :
    needs_key p { e with custom_invlet := k } = needs_key p e := rfl

/-- A key found by `next_free_invlet` lies between `cur` and the range
maximum. -/
theorem next_free_invlet_bounds (bound : List Int) :
    ∀ (fuel : Nat) (cur max_invlet k : Int),
      next_free_invlet bound fuel cur max_invlet = some k →
      cur ≤ k ∧ k ≤ max_invlet
  | 0, cur, m, k, h => by simp [next_free_invlet] at h
  | fuel + 1, cur, m, k, h => by
    unfold next_free_invlet at h
    by_cases hc : m < cur
    · rw [if_pos hc] at h
      exact absurd h (by simp)
    · rw [if_neg hc] at h
      by_cases hb : bound.contains cur = true
      · rw [if_pos hb] at h
        have := next_free_invlet_bounds bound fuel (cur + 1) m k h
        omega
      · rw [if_neg hb] at h
        have : cur = k := by simpa using h
        omega

/-- Keys handed out by the reassignment walk: each targeted entry holds
either the exhaustion sentinel 0 or a key between the walk's cursor and the
range maximum, and along the walk the non-sentinel keys strictly
increase. -/
theorem reassign_keys_spec (p : player_model) (m : Int) :
    ∀ (es : List inventory_entry) (cur : Int),
      (∀ k ∈ assigned_list p (reassign_go p m cur es).1,
          k = 0 ∨ (cur ≤ k ∧ k ≤ m)) ∧
      (assigned_list p (reassign_go p m cur es).1).Pairwise
        (fun a b => a ≠ 0 → b ≠ 0 → a < b)
  | [], cur => by simp [reassign_go, assigned_list]
  | e :: rest, cur => by
    unfold reassign_go
    by_cases hne : needs_key p e = true
    · rw [if_pos hne]
      cases hnf : next_free_invlet p.bound ((m - cur).toNat + 1) cur m with
      | some k =>
        obtain ⟨hk1, hk2⟩ := next_free_invlet_bounds p.bound _ cur m k hnf
        obtain ⟨iha, ihb⟩ := reassign_keys_spec p m rest (k + 1)
        have hal : assigned_list p
            ({ e with custom_invlet := k } ::
              (reassign_go p m (k + 1) rest).1)
            = k :: assigned_list p (reassign_go p m (k + 1) rest).1 := by
          simp [assigned_list, List.filter_cons, needs_key_set_invlet, hne]
        simp only [hal]
        constructor
        · intro x hx
          rcases List.mem_cons.mp hx with hx0 | hxs
          · exact Or.inr ⟨by omega, by omega⟩
          · rcases iha x hxs with h0 | ⟨hl, hr⟩
            · exact Or.inl h0
            · exact Or.inr ⟨by omega, hr⟩
        · refine List.Pairwise.cons ?_ ihb
          intro b hb hk0 hb0
          rcases iha b hb with h0 | ⟨hl, hr⟩
          · exact absurd h0 hb0
          · omega
      | none =>
        obtain ⟨iha, ihb⟩ := reassign_keys_spec p m rest cur
        have hal : assigned_list p
            ({ e with custom_invlet := (0 : Int) } ::
              (reassign_go p m cur rest).1)
            = 0 :: assigned_list p (reassign_go p m cur rest).1 := by
          simp [assigned_list, List.filter_cons, needs_key_set_invlet, hne]
        simp only [hal]
        constructor
        · intro x hx
          rcases List.mem_cons.mp hx with hx0 | hxs
          · exact Or.inl hx0
          · exact iha x hxs
        · refine List.Pairwise.cons ?_ ihb
          intro b hb hk0 hb0
          exact absurd rfl hk0
    · rw [if_neg hne]
      obtain ⟨iha, ihb⟩ := reassign_keys_spec p m rest cur
      have hal : assigned_list p (e :: (reassign_go p m cur rest).1)
          = assigned_list p (reassign_go p m cur rest).1 := by
        simp [assigned_list, List.filter_cons, hne]
      simp only [hal]
      exact ⟨iha, ihb⟩

/-- Unfolding the walk at an entry that receives a key. -/
theorem reassign_go_cons_some (p : player_model) (m cur : Int)
    (e : inventory_entry) (rest : List inventory_entry) (k : Int)
    (hne : needs_key p e = true)
    (hnf : next_free_invlet p.bound ((m - cur).toNat + 1) cur m = some k) :
    reassign_go p m cur (e :: rest)
      = ({ e with custom_invlet := k } ::
          (reassign_go p m (k + 1) rest).1,
         (reassign_go p m (k + 1) rest).2) := by
  conv_lhs => rw [reassign_go]
  rw [if_pos hne, hnf]

/-- Unfolding the walk at an entry hit by range exhaustion. -/
theorem reassign_go_cons_none (p : player_model) (m cur : Int)
    (e : inventory_entry) (rest : List inventory_entry)
    (hne : needs_key p e = true)
    (hnf : next_free_invlet p.bound ((m - cur).toNat + 1) cur m = none) :
    reassign_go p m cur (e :: rest)
      = ({ e with custom_invlet := (0 : Int) } ::
          (reassign_go p m cur rest).1,
         (reassign_go p m cur rest).2) := by
  conv_lhs => rw [reassign_go]
  rw [if_pos hne, hnf]

/-- Unfolding the walk at an entry it skips. -/
theorem reassign_go_cons_skip (p : player_model) (m cur : Int)
    (e : inventory_entry) (rest : List inventory_entry)
    (hne : ¬needs_key p e = true) :
    reassign_go p m cur (e :: rest)
      = (e :: (reassign_go p m cur rest).1,
         (reassign_go p m cur rest).2) := by
  conv_lhs => rw [reassign_go]
  rw [if_neg hne]

/-- Overwriting a key twice is overwriting it once. -/
theorem set_invlet_twice (e : inventory_entry) (k : Int) :
    ({ { e with custom_invlet := k } with custom_invlet := k }
      : inventory_entry) = { e with custom_invlet := k } := rfl

/-- Running the reassignment walk on its own output reproduces that output:
the walk reads nothing that it writes. -/
theorem reassign_go_idem (p : player_model) (m : Int) :
    ∀ (es : List inventory_entry) (cur : Int),
      reassign_go p m cur (reassign_go p m cur es).1
        = reassign_go p m cur es
  | [], cur => by simp [reassign_go]
  | e :: rest, cur => by
    by_cases hne : needs_key p e = true
    · cases hnf : next_free_invlet p.bound ((m - cur).toNat + 1) cur m with
      | some k =>
        have hne2 : needs_key p { e with custom_invlet := k } = true := by
          rw [needs_key_set_invlet]
          exact hne
        rw [reassign_go_cons_some p m cur e rest k hne hnf]
        rw [reassign_go_cons_some p m cur { e with custom_invlet := k }
          (reassign_go p m (k + 1) rest).1 k hne2 hnf]
        rw [set_invlet_twice, reassign_go_idem p m rest (k + 1)]
      | none =>
        have hne2 : needs_key p { e with custom_invlet := (0 : Int) }
            = true := by
          rw [needs_key_set_invlet]
          exact hne
        rw [reassign_go_cons_none p m cur e rest hne hnf]
        rw [reassign_go_cons_none p m cur { e with custom_invlet := (0 : Int) }
          (reassign_go p m cur rest).1 hne2 hnf]
        rw [set_invlet_twice, reassign_go_idem p m rest cur]
    · rw [reassign_go_cons_skip p m cur e rest hne]
      rw [reassign_go_cons_skip p m cur e (reassign_go p m cur rest).1 hne]
      rw [reassign_go_idem p m rest cur]

/-- C4: within a positive key range, `reassign_custom_invlets` never hands
the same key to two targeted entries, and running it again on its own
output with the same range reproduces that output (idempotence). -/
theorem reassign_invlets_spec (p : player_model)
    (min_invlet max_invlet : Int) (es : List inventory_entry)
    (hmin : 0 < min_invlet) :
    ((assigned_list p
        (reassign_custom_invlets p min_invlet max_invlet es).1).filter
          (fun k => decide (min_invlet ≤ k ∧ k ≤ max_invlet))).Nodup ∧
      reassign_custom_invlets p min_invlet max_invlet
          (reassign_custom_invlets p min_invlet max_invlet es).1
        = reassign_custom_invlets p min_invlet max_invlet es := by
  constructor
  · obtain ⟨ha, hb⟩ := reassign_keys_spec p max_invlet es min_invlet
    have hp : (assigned_list p
        (reassign_go p max_invlet min_invlet es).1).Pairwise
        (fun a b => (min_invlet ≤ a ∧ a ≤ max_invlet) →
          (min_invlet ≤ b ∧ b ≤ max_invlet) → a ≠ b) := by
      refine List.Pairwise.imp ?_ hb
      intro a b hab hpa hpb
      have : a < b := hab (by omega) (by omega)
      omega
    exact List.pairwise_filter.mpr hp
  · exact reassign_go_idem p max_invlet es min_invlet

/-- Witness for C4: key range [2, 4] with key 3 bound elsewhere, item 1
already known to the character; items 2 and 5 receive distinct keys 2 and
4, and the second run reproduces the first. -/
theorem reassign_invlets_spec_witness :
    (0 : Int) < 2 ∧
      (((assigned_list { known := [1], bound := [3] }
          (reassign_custom_invlets { known := [1], bound := [3] } 2 4
            [sampleEntry 1, sampleEntry 2, sampleEntry 5]).1).filter
            (fun k => decide ((2 : Int) ≤ k ∧ k ≤ 4))).Nodup ∧
        reassign_custom_invlets { known := [1], bound := [3] } 2 4
            (reassign_custom_invlets { known := [1], bound := [3] } 2 4
              [sampleEntry 1, sampleEntry 2, sampleEntry 5]).1
          = reassign_custom_invlets { known := [1], bound := [3] } 2 4
              [sampleEntry 1, sampleEntry 2, sampleEntry 5]) :=
  ⟨by decide, reassign_invlets_spec { known := [1], bound := [3] } 2 4
    [sampleEntry 1, sampleEntry 2, sampleEntry 5] (by decide)⟩

/-- Witness for C5 (amended) at a concrete item-mode column. -/
theorem move_fwd_bwd_roundtrip_witness :
    itemModeColumn.mode = navigation_mode.ITEM ∧
      ((itemModeColumn.move_selection scroll_direction.FORWARD).move_selection
          scroll_direction.BACKWARD).selected_index
        = itemModeColumn.selected_index :=
  ⟨rfl, move_fwd_bwd_roundtrip itemModeColumn rfl (by decide) (by decide)⟩

/-- Witness for C6 (amended) at a concrete item-mode column. -/
theorem move_fwd_cycle_witness :
    sel_at itemModeColumn.entries itemModeColumn.selected_index = true ∧
      ((fun x => inventory_column.move_selection x
          scroll_direction.FORWARD)^[(sel_indices
            itemModeColumn.entries).length]
          itemModeColumn).selected_index = itemModeColumn.selected_index :=
  ⟨by decide, move_fwd_cycle itemModeColumn rfl (by decide) (by decide)⟩
